import Mathlib

/-!
Verification development for the client-side vault cryptography layer of the
LeakCheck mobile password manager (repository `Pkepowicz/Metodyki_projektow_2025`).

The TypeScript sources use CryptoJS AES (CBC mode, PKCS7 padding), PBKDF2 and
HKDF.  We embed the code shallowly:

* a JavaScript string is modelled by its UTF-8 byte sequence, `List Nat`
  with every entry `< 256`;
* the AES block permutation itself is an external library primitive, so it is
  a parameter `E : Str → Str → Str` (key, 16-byte block ↦ 16-byte block)
  together with its inverse `D`; the predicate `GoodCipher E D` records the
  properties the library guarantees.  Everything built on top of it — CBC
  chaining, PKCS7 padding, the CryptoJS truncating unpad, Base64 / Hex / UTF-8
  (de)serialisation — is translated from the concrete code paths;
* stateful Secret-Store access (`expo-secure-store` / `AsyncStorage` behind
  `utils/storage.tsx`) becomes explicit state passing over a `Store` record;
* network calls are external collaborators: server responses are parameters
  of the functions that consume them.
-/

/-- Byte strings: JavaScript strings and CryptoJS WordArrays are both
modelled as lists of bytes. -/
abbrev Str := List Nat

/-- All entries of the list are bytes (`< 256`). -/
def ByteRange (l : Str) : Prop := ∀ x ∈ l, x < 256

instance : DecidablePred ByteRange := fun l =>
  inferInstanceAs (Decidable (∀ x ∈ l, x < 256))

/-- Bytewise XOR of two byte strings (CryptoJS word-level XOR, restricted to
the common length). -/
def xorB (a b : Str) : Str := List.zipWith (fun x y => x ^^^ y) a b

/-! ### PKCS7 padding, as CryptoJS implements it

`CryptoJS.pad.Pkcs7.pad` appends `n = 16 - len % 16` copies of the byte `n`.
`CryptoJS.pad.Pkcs7.unpad` reads the final byte and truncates that many bytes
without any validation (`data.sigBytes -= nPaddingBytes`). -/

/-- Number of PKCS7 padding bytes for a message of length `n` (block size 16). -/
def padLen (n : Nat) : Nat := 16 - n % 16

/-- PKCS7 pad to a multiple of 16 bytes. -/
def pad16 (l : Str) : Str := l ++ List.replicate (padLen l.length) (padLen l.length)

/-- The byte CryptoJS reads to decide how much to unpad: the last byte,
`0` on empty input. -/
def lastByte (l : Str) : Nat := l.getLastD 0

/-- CryptoJS `Pkcs7.unpad`: drop as many final bytes as the last byte says,
with no validation of the padding bytes. -/
def unpadJS (l : Str) : Str := l.take (l.length - lastByte l)

/-! ### Splitting into 16-byte blocks -/

/-- Fuel-driven split of a byte string into 16-byte chunks (fuel bounds the
number of list elements so the recursion is structural). -/
def chunksGo : Nat → Str → List Str
  | _, [] => []
  | 0, _ :: _ => []
  | fuel + 1, a :: l => ((a :: l).take 16) :: chunksGo fuel ((a :: l).drop 16)

/-- Split a byte string into 16-byte blocks. -/
def chunks16 (l : Str) : List Str := chunksGo l.length l

/-! ### CBC mode over an abstract block permutation -/

/-- What the AES library guarantees for key `k` on a 16-byte block of bytes:
encryption yields a 16-byte block of bytes and decryption inverts it. -/
def GoodCipher (E D : Str → Str → Str) : Prop :=
  ∀ k b, b.length = 16 → ByteRange b →
    (E k b).length = 16 ∧ ByteRange (E k b) ∧ D k (E k b) = b

/-- CBC encryption over a list of plaintext blocks, carrying the previous
ciphertext block (initially the IV). -/
def cbcEncBlocks (E : Str → Str → Str) (k : Str) : Str → List Str → List Str
  | _, [] => []
  | prev, b :: bs =>
    let c := E k (xorB b prev)
    c :: cbcEncBlocks E k c bs

/-- CBC decryption over a list of ciphertext blocks. -/
def cbcDecBlocks (D : Str → Str → Str) (k : Str) : Str → List Str → List Str
  | _, [] => []
  | prev, c :: cs => xorB (D k c) prev :: cbcDecBlocks D k c cs

/-! ### Hex encoding (CryptoJS `enc.Hex`) -/

/-- Hex digit for a nibble, lowercase as CryptoJS `toString(Hex)` produces. -/
def hexChar (n : Nat) : Nat := if n < 10 then 48 + n else 87 + n

/-- Value of a hex digit character (CryptoJS `Hex.parse` accepts both cases). -/
def hexCharDec (c : Nat) : Nat :=
  if c < 58 then c - 48 else if c < 97 then c - 55 else c - 87

/-- `WordArray.toString(CryptoJS.enc.Hex)`: two hex characters per byte. -/
def hexEncode : Str → Str
  | [] => []
  | a :: rest => hexChar (a / 16) :: hexChar (a % 16) :: hexEncode rest

/-- `CryptoJS.enc.Hex.parse`: read bytes two hex characters at a time. -/
def hexDecode : Str → Str
  | a :: b :: rest => (hexCharDec a * 16 + hexCharDec b) :: hexDecode rest
  | _ => []

/-! ### Base64 encoding (CryptoJS `enc.Base64`, the default `toString` of a
ciphertext without a salt envelope) -/

/-- Base64 alphabet character for a 6-bit value. -/
def b64Char (n : Nat) : Nat :=
  if n < 26 then 65 + n
  else if n < 52 then 97 + (n - 26)
  else if n < 62 then 48 + (n - 52)
  else if n = 62 then 43
  else 47

/-- Inverse of `b64Char` on the alphabet. -/
def b64CharDec (c : Nat) : Nat :=
  if 65 ≤ c ∧ c ≤ 90 then c - 65
  else if 97 ≤ c ∧ c ≤ 122 then c - 97 + 26
  else if 48 ≤ c ∧ c ≤ 57 then c - 48 + 52
  else if c = 43 then 62
  else 63

/-- `WordArray.toString(CryptoJS.enc.Base64)`: 3 bytes → 4 characters, with
`=` (61) padding for a 1- or 2-byte tail. -/
def base64Encode : Str → Str
  | [] => []
  | [a] => [b64Char (a / 4), b64Char (a % 4 * 16), 61, 61]
  | [a, b] => [b64Char (a / 4), b64Char (a % 4 * 16 + b / 16), b64Char (b % 16 * 4), 61]
  | a :: b :: c :: rest =>
    b64Char (a / 4) :: b64Char (a % 4 * 16 + b / 16) :: b64Char (b % 16 * 4 + c / 64) ::
      b64Char (c % 64) :: base64Encode rest

/-- `CryptoJS.enc.Base64.parse`: 4 characters → 3 bytes, stopping at `=`. -/
def base64Decode : Str → Str
  | w :: x :: y :: z :: rest =>
    if z = 61 then
      if y = 61 then [b64CharDec w * 4 + b64CharDec x / 16]
      else [b64CharDec w * 4 + b64CharDec x / 16,
            b64CharDec x % 16 * 16 + b64CharDec y / 4]
    else
      (b64CharDec w * 4 + b64CharDec x / 16) ::
      (b64CharDec x % 16 * 16 + b64CharDec y / 4) ::
      (b64CharDec y % 4 * 64 + b64CharDec z) :: base64Decode rest
  | _ => []

/-! ### UTF-8 validity (`WordArray.toString(CryptoJS.enc.Utf8)`)

CryptoJS stringifies via `decodeURIComponent(escape(latin1))`, which throws a
`URIError` exactly when the bytes are not well-formed UTF-8.  We model a
JavaScript string by its UTF-8 bytes, so stringification is the identity on
well-formed byte sequences and an error otherwise. -/

/-- UTF-8 continuation byte. -/
def isCont (b : Nat) : Bool := 128 ≤ b && b < 192

/-- Well-formed UTF-8 byte sequence (what `decodeURIComponent` accepts). -/
def isValidUtf8 : Str → Bool
  | [] => true
  | b :: rest =>
    if b < 128 then isValidUtf8 rest
    else if 194 ≤ b && b ≤ 223 then
      match rest with
      | c1 :: r => isCont c1 && isValidUtf8 r
      | [] => false
    else if b = 224 then
      match rest with
      | c1 :: c2 :: r => (160 ≤ c1 && c1 ≤ 191) && isCont c2 && isValidUtf8 r
      | _ => false
    else if (225 ≤ b && b ≤ 236) || b = 238 || b = 239 then
      match rest with
      | c1 :: c2 :: r => isCont c1 && isCont c2 && isValidUtf8 r
      | _ => false
    else if b = 237 then
      match rest with
      | c1 :: c2 :: r => (128 ≤ c1 && c1 ≤ 159) && isCont c2 && isValidUtf8 r
      | _ => false
    else if b = 240 then
      match rest with
      | c1 :: c2 :: c3 :: r => (144 ≤ c1 && c1 ≤ 191) && isCont c2 && isCont c3 && isValidUtf8 r
      | _ => false
    else if 241 ≤ b && b ≤ 243 then
      match rest with
      | c1 :: c2 :: c3 :: r => isCont c1 && isCont c2 && isCont c3 && isValidUtf8 r
      | _ => false
    else if b = 244 then
      match rest with
      | c1 :: c2 :: c3 :: r => (128 ≤ c1 && c1 ≤ 143) && isCont c2 && isCont c3 && isValidUtf8 r
      | _ => false
    else false

/-- `WordArray.toString(CryptoJS.enc.Utf8)`: the decoded string (identified
with its bytes) on well-formed input, failure otherwise. -/
def utf8Stringify (l : Str) : Option Str :=
  if isValidUtf8 l then some l else none

/-! ### `String.prototype.toLowerCase`, restricted to the ASCII bytes that can
appear in an e-mail address. -/

/-- ASCII lower-casing of a byte string (model of `email.toLowerCase()`). -/
def toLowerAscii (l : Str) : Str :=
  l.map fun b => if 65 ≤ b ∧ b ≤ 90 then b + 32 else b

/-! ### PBKDF2 (CryptoJS `PBKDF2`), over an abstract PRF

`CryptoJS.PBKDF2(password, salt, { keySize, iterations })` computes blocks
`T_i = U_1 ^ U_2 ^ ... ^ U_c` with `U_1 = PRF(password, salt || INT(i))` and
`U_{j+1} = PRF(password, U_j)`, concatenating blocks until `keySize` words are
available.  The PRF (HMAC over the configured hasher) is an external library
primitive and is a parameter. -/

/-- Big-endian 4-byte block index, as PBKDF2's `INT(i)`. -/
def int32be (i : Nat) : Str := [i / 2 ^ 24 % 256, i / 2 ^ 16 % 256, i / 256 % 256, i % 256]

/-- The xor-accumulating PRF chain of one PBKDF2 block: `n` further PRF
rounds starting from intermediate `u` with accumulator `acc`. -/
def blockGo (prf : Str → Str → Str) (pw : Str) : Nat → Str → Str → Str
  | 0, _, acc => acc
  | n + 1, u, acc =>
    let u2 := prf pw u
    blockGo prf pw n u2 (xorB acc u2)

/-- One PBKDF2 block `T_i` with `c` iterations. -/
def pbkdf2Block (prf : Str → Str → Str) (pw salt : Str) (c i : Nat) : Str :=
  let U1 := prf pw (salt ++ int32be i)
  blockGo prf pw (c - 1) U1 U1

/-- Accumulate PBKDF2 blocks until `dkLen` bytes are available (the fuel is
only a structural bound; each round adds at least one byte for a real PRF). -/
def pbkdf2Go (prf : Str → Str → Str) (pw salt : Str) (c dkLen : Nat) :
    Nat → Nat → Str → Str
  | 0, _, acc => acc
  | fuel + 1, i, acc =>
    if dkLen ≤ acc.length then acc
    else pbkdf2Go prf pw salt c dkLen fuel (i + 1) (acc ++ pbkdf2Block prf pw salt c i)

/-- CryptoJS `PBKDF2` with derived-key length `dkLen` bytes and `c` iterations,
parameterised by the PRF. -/
def pbkdf2 (prf : Str → Str → Str) (pw salt : Str) (c dkLen : Nat) : Str :=
  (pbkdf2Go prf pw salt c dkLen dkLen 1 []).take dkLen

/-! ### Full-string CBC encryption and decryption, CryptoJS composition

`CryptoJS.AES.encrypt(msg, key, { iv })` with a `WordArray` key pads the
message with PKCS7 and CBC-encrypts it; `.toString()` Base64-encodes the raw
ciphertext (OpenSSL format without a passphrase salt).  `CryptoJS.AES.decrypt`
reverses the steps, with the truncating unpad. -/

/-- Pad, chunk, CBC-encrypt and flatten: raw ciphertext bytes of
`CryptoJS.AES.encrypt(msg, key, { iv })`. -/
def aesEncBytes (E : Str → Str → Str) (key iv msg : Str) : Str :=
  (cbcEncBlocks E key iv (chunks16 (pad16 msg))).flatten

/-- Chunk, CBC-decrypt, flatten and unpad: plaintext `WordArray` of
`CryptoJS.AES.decrypt(ct, key, { iv })` on raw ciphertext bytes. -/
def aesDecBytes (D : Str → Str → Str) (key iv ct : Str) : Str :=
  unpadJS (cbcDecBlocks D key iv (chunks16 ct)).flatten

/-! ### The Secret Store

`utils/storage.tsx` branches on the platform but both branches implement the
same key-value contract; the keys the app uses are `token`, `refresh_token`,
`vault_key` and `iv`. -/

/-- The device Secret Store, one field per key the app uses. -/
structure Store where
  token : Option Str
  refresh_token : Option Str
  vault_key : Option Str
  iv : Option Str
deriving DecidableEq

/-- Error taxonomy.  Constructors correspond to the `throw`/early-return sites
of the code (and `invalidInput`, named by the specification but produced
nowhere in the code). -/
inductive VaultError where
  | vaultKeyNotSet
  | ivNotSet
  | malformedUtf8
  | passwordsDontMatch
  | fetchItemsFailed
  | changePasswordRejected
  | invalidCredentials
  | vaultKeyFetchFailed
  | enterEmailAndPassword
  | invalidEmail
  | registerRejected
  | invalidInput
deriving DecidableEq

instance {ε α : Type} [DecidableEq ε] [DecidableEq α] : DecidableEq (Except ε α)
  | .ok x, .ok y => decidable_of_iff (x = y) (by simp)
  | .error x, .error y => decidable_of_iff (x = y) (by simp)
  | .ok _, .error _ => .isFalse (fun h => by cases h)
  | .error _, .ok _ => .isFalse (fun h => by cases h)

/-- JavaScript truthiness of an optional string: `null` and `""` are falsy. -/
def jsPresent : Option Str → Option Str
  | some [] => none
  | some s => some s
  | none => none

/-- `if (!a) a = b` for optional strings. -/
def orFalsy (a b : Option Str) : Option Str :=
  match jsPresent a with
  | none => b
  | s => s

/-! ### `utils/encryption.tsx` (current revision, passphrase-keyed variant,
lines 47–98): `CryptoJS.AES.encrypt(password, vault_key)` with a *string* key
derives key and IV from the passphrase and a fresh 8-byte salt via the
OpenSSL EvpKDF, and serialises as Base64 of `"Salted__" ++ salt ++ ct`.
The EvpKDF is an external primitive: parameter `kdf : passphrase → salt →
(key, iv)`.  The random salt is an explicit argument. -/

/-- The OpenSSL magic bytes `"Salted__"`. -/
def saltedMagic : Str := [83, 97, 108, 116, 101, 100, 95, 95]

namespace Enc1

/-- `encryptVaultPassword(password)` of `utils/encryption.tsx`: requires the
resident vault key, then passphrase-mode `CryptoJS.AES.encrypt`. -/
def encryptVaultPassword (E : Str → Str → Str) (kdf : Str → Str → Str × Str)
    (st : Store) (salt password : Str) : Except VaultError Str :=
  match jsPresent st.vault_key with
  | none => .error .vaultKeyNotSet
  | some vault_key =>
    let kiv := kdf vault_key salt
    .ok (base64Encode (saltedMagic ++ salt ++ aesEncBytes E kiv.1 kiv.2 password))

/-- `decryptVaultPassword(encrypted_password)` of `utils/encryption.tsx`:
Base64-parse, read the OpenSSL salt header, re-derive key and IV from the
resident vault key, CBC-decrypt, unpad, UTF-8-stringify. -/
def decryptVaultPassword (D : Str → Str → Str) (kdf : Str → Str → Str × Str)
    (st : Store) (encrypted_password : Str) : Except VaultError Str :=
  match jsPresent st.vault_key with
  | none => .error .vaultKeyNotSet
  | some vault_key =>
    let raw := base64Decode encrypted_password
    let salt := if raw.take 8 = saltedMagic then (raw.drop 8).take 8 else []
    let ct := if raw.take 8 = saltedMagic then raw.drop 16 else raw
    let kiv := kdf vault_key salt
    match utf8Stringify (aesDecBytes D kiv.1 kiv.2 ct) with
    | some s => .ok s
    | none => .error .malformedUtf8

end Enc1

/-! ### `src/unnamed/part_016` revision of `utils/encryption.tsx`
(lines 46–117): raw-key variant.  The vault key is a hex string (optionally
passed as an argument, else read from the store), the IV is the hex string
stored under `"iv"`.  Note the functions take *two* parameters: the third
argument the password-change screen passes is silently ignored. -/

namespace Enc2

/-- `encryptVaultPassword(password, vault_key_str = null)` of part_016. -/
def encryptVaultPassword (E : Str → Str → Str) (st : Store)
    (password : Str) (vault_key_str : Option Str) : Except VaultError Str :=
  match jsPresent (orFalsy vault_key_str st.vault_key) with
  | none => .error .vaultKeyNotSet
  | some ks =>
    match jsPresent st.iv with
    | none => .error .ivNotSet
    | some ivs =>
      .ok (base64Encode (aesEncBytes E (hexDecode ks) (hexDecode ivs) password))

/-- `decryptVaultPassword(encrypted_password, vault_key_str = null)` of
part_016. -/
def decryptVaultPassword (D : Str → Str → Str) (st : Store)
    (encrypted_password : Str) (vault_key_str : Option Str) : Except VaultError Str :=
  match jsPresent (orFalsy vault_key_str st.vault_key) with
  | none => .error .vaultKeyNotSet
  | some ks =>
    match jsPresent st.iv with
    | none => .error .ivNotSet
    | some ivs =>
      match utf8Stringify
        (aesDecBytes D (hexDecode ks) (hexDecode ivs) (base64Decode encrypted_password)) with
      | some s => .ok s
      | none => .error .malformedUtf8

end Enc2

/-! ### Key derivation (`utils/encryption.tsx` lines 72–98, `utils/auth.tsx`) -/

/-- The iteration count hard-coded at every `CryptoJS.PBKDF2` call site. -/
def pbkdfIterations : Nat := 10000

/-- `calculateMasterKey(email, password)`: PBKDF2 with the lower-cased email
as salt, `keySize: 256 / 32` words (32 bytes), 10000 iterations. -/
def calculateMasterKey (prf : Str → Str → Str) (email password : Str) : Str :=
  pbkdf2 prf password (toLowerAscii email) pbkdfIterations 32

/-- `stretchedMasterKey(master_key)`: HKDF-SHA256 expansion to 64 bytes.  The
word-to-byte conversion is the identity in the byte model; HKDF itself is an
external primitive, parameter `hk`. -/
def stretchedMasterKey (hk : Str → Str) (master_key : Str) : Str := hk master_key

/-- `getAuthHash(master_key, salt)` of `utils/auth.tsx`: a second PBKDF2 pass
keyed on the master key with the plaintext password as salt, hex-encoded. -/
def getAuthHash (prf : Str → Str → Str) (master_key salt : Str) : Str :=
  hexEncode (pbkdf2 prf master_key salt pbkdfIterations 32)

/-- `logout` (`utils/auth.tsx` lines 16–19 / part_015 lines 21–25): removes
exactly the `token` entry. -/
def logout (st : Store) : Store := { st with token := none }

/-- JavaScript `\s` on the ASCII range. -/
def isWhitespace (b : Nat) : Bool :=
  b = 9 || b = 10 || b = 11 || b = 12 || b = 13 || b = 32

/-- `isEmailValid` (`utils/auth.tsx`): the regex
`/^[^\s@]+@[^\s@]+\.[^\s@]+$/` — exactly one `@`, a non-empty local part, and
a `.` strictly inside the domain part, no whitespace anywhere. -/
def isEmailValid (s : Str) : Bool :=
  match s.splitOn 64 with
  | [a, r] =>
    !a.isEmpty && (a ++ r).all (fun b => !isWhitespace b) &&
    ((r.drop 1).take (r.length - 2)).contains 46
  | _ => false

/-! ### Wrapping and unwrapping the vault key

Wrapping is `app/register.tsx` lines 41–45 (and identically
`app/home/settings.tsx` lines 164–168): `CryptoJS.AES.encrypt(symmetric_key,
stretched_master_key, { iv })` serialised by `.toString()` (Base64, no
passphrase envelope).  Unwrapping is `part_015` login lines 133–144:
Base64-parse, `CryptoJS.AES.decrypt` with the stretched key and the
hex-parsed IV. -/

/-- Wrap the raw vault-key bytes under the stretched master key. -/
def wrapVaultKey (E : Str → Str → Str) (stretched_master_key symBytes ivBytes : Str) : Str :=
  base64Encode (aesEncBytes E stretched_master_key ivBytes symBytes)

/-- Unwrap at login: Base64-parse the wrapped value and AES-decrypt it under
the stretched master key with the hex-parsed IV. -/
def unwrapVaultKey (D : Str → Str → Str) (stretched_master_key wrapped ivHex : Str) : Str :=
  aesDecBytes D stretched_master_key (hexDecode ivHex) (base64Decode wrapped)

/-! ### `login` (`src/unnamed/part_015` lines 91–163)

The server is an external collaborator: its registered authentication hash,
token reply and vault-key reply are fields of `ServerAuthState`; per the API
contract (§6 of the specification) the login endpoint accepts exactly a
matching `auth_hash`. -/

/-- Server-side authentication state consumed by `login`. -/
structure ServerAuthState where
  auth_hash : Str
  access_token : Str
  refresh_token : Str
  vault_key_fetch_ok : Bool
  protected_vault_key : Str
  protected_vault_key_iv : Str

/-- `login(email, password, ...)`: derive master key and auth hash, post to
`auth/login`; on success store tokens, fetch the wrapped vault key, store the
IV, unwrap with the stretched master key and commit the vault key (hex). -/
def login (D : Str → Str → Str) (prf : Str → Str → Str) (hk : Str → Str)
    (srv : ServerAuthState) (email password : Str) (st : Store) :
    Store × Except VaultError Str :=
  let master_key := calculateMasterKey prf email password
  let auth_hash := getAuthHash prf master_key password
  if auth_hash = srv.auth_hash then
    let st1 := { st with token := some srv.access_token,
                         refresh_token := some srv.refresh_token }
    if srv.vault_key_fetch_ok then
      let st2 := { st1 with iv := some srv.protected_vault_key_iv }
      let stretched_master_key := stretchedMasterKey hk master_key
      let symmetric_key := unwrapVaultKey D stretched_master_key
        srv.protected_vault_key srv.protected_vault_key_iv
      ({ st2 with vault_key := some (hexEncode symmetric_key) },
        .ok srv.access_token)
    else (st1, .error .vaultKeyFetchFailed)
  else (st, .error .invalidCredentials)

/-! ### `handleRegister` (`app/register.tsx` lines 21–78)

Random bytes (`Crypto.getRandomBytesAsync`) are explicit arguments; the
server's accept/reject decision for `auth/register` is the parameter
`registerOk`.  The trailing auto-login is a separate `login` call and is not
folded in. -/

/-- The registration payload posted to `auth/register`. -/
structure RegisterPayload where
  email : Str
  auth_hash : Str
  protected_vault_key : Str
  protected_vault_key_iv : Str

/-- Result of a `handleRegister` run: final store, payload posted (if any),
outcome. -/
structure RegisterResult where
  store : Store
  sent : Option RegisterPayload
  err : Except VaultError Unit

/-- `handleRegister`: validate inputs, derive keys, wrap a fresh vault key,
commit it to the store (before the network call!), post the payload. -/
def handleRegister (E : Str → Str → Str) (prf : Str → Str → Str) (hk : Str → Str)
    (st : Store) (email password symBytes ivBytes : Str) (registerOk : Bool) :
    RegisterResult :=
  if email = [] ∨ password = [] then
    { store := st, sent := none, err := .error .enterEmailAndPassword }
  else if ¬ isEmailValid email then
    { store := st, sent := none, err := .error .invalidEmail }
  else
    let master_key := calculateMasterKey prf email password
    let stretched_master_key := stretchedMasterKey hk master_key
    let auth_hash := getAuthHash prf master_key password
    let encrypted_vault_key := wrapVaultKey E stretched_master_key symBytes ivBytes
    let st1 := { st with vault_key := some (hexEncode symBytes) }
    let payload : RegisterPayload :=
      { email := email, auth_hash := auth_hash,
        protected_vault_key := encrypted_vault_key,
        protected_vault_key_iv := hexEncode ivBytes }
    if registerOk then { store := st1, sent := some payload, err := .ok () }
    else { store := st1, sent := some payload, err := .error .registerRejected }

/-! ### `changePassword` (`app/home/settings.tsx` lines 140–231) -/

/-- A vault item as fetched from and re-posted to the server. -/
structure RetrievedVaultItem where
  site : Str
  id : Nat
  owner_id : Nat
  encrypted_password : Str
deriving DecidableEq

/-- The `auth/change-password` request body. -/
structure ChangePasswordRequest where
  current_auth_hash : Str
  new_auth_hash : Str
  new_protected_vault_key : Str
  new_protected_vault_key_iv : Str
  items : List RetrievedVaultItem
deriving DecidableEq

/-- Result of a `changePassword` run: final store, request posted (if the run
got that far), outcome. -/
structure ChangeResult where
  store : Store
  sent : Option ChangePasswordRequest
  err : Except VaultError Unit

/-- The re-encryption loop of `changePassword`: for each fetched item,
`decryptVaultPassword(old_encrypted_password, old_symmetric_key, old_iv)` —
whose third argument the two-parameter part_016 function ignores — then
`encryptVaultPassword(old_password, newKeyHex, ...)`, keeping `site`, `id`
and `owner_id`.  The store `st` is the state after the new IV was written. -/
def reencryptItems (E D : Str → Str → Str) (st : Store) (oldKey : Option Str)
    (newKeyHex : Str) : List RetrievedVaultItem →
    Except VaultError (List RetrievedVaultItem)
  | [] => .ok []
  | item :: rest =>
    match Enc2.decryptVaultPassword D st item.encrypted_password oldKey with
    | .error e => .error e
    | .ok old_password =>
      match Enc2.encryptVaultPassword E st old_password (some newKeyHex) with
      | .error e => .error e
      | .ok new_encrypted =>
        match reencryptItems E D st oldKey newKeyHex rest with
        | .error e => .error e
        | .ok rest2 =>
          .ok ({ site := item.site, id := item.id, owner_id := item.owner_id,
                 encrypted_password := new_encrypted } :: rest2)

/-- The store after `if (!old_symmetric_key) logout(router);` — the call
removes the token but the function falls through and continues. -/
def storeAfterLogoutCheck (st : Store) : Store :=
  match jsPresent st.vault_key with
  | none => logout st
  | some _ => st

/-- `changePassword`: the password-rotation flow.  `symBytes`/`ivBytes` are
the fresh random key and IV, `itemsResp` the `vault/items` fetch result and
`postOk` the server's verdict on `auth/change-password`.  Faithful details:
the new IV is written to the store *before* the items are fetched and
re-encrypted, a missing vault key calls `logout` but falls through, and the
vault key is replaced only after a successful post. -/
def changePassword (E D : Str → Str → Str) (prf : Str → Str → Str) (hk : Str → Str)
    (st : Store) (email oldPassword newPassword confirmPassword : Str)
    (symBytes ivBytes : Str)
    (itemsResp : Except Str (List RetrievedVaultItem)) (postOk : Bool) :
    ChangeResult :=
  if newPassword ≠ confirmPassword then
    { store := st, sent := none, err := .error .passwordsDontMatch }
  else
    let old_master_key := calculateMasterKey prf email oldPassword
    let old_auth_hash := getAuthHash prf old_master_key oldPassword
    let old_symmetric_key := st.vault_key
    let st0 := storeAfterLogoutCheck st
    let master_key := calculateMasterKey prf email newPassword
    let stretched_master_key := stretchedMasterKey hk master_key
    let auth_hash := getAuthHash prf master_key newPassword
    let encrypted_vault_key := wrapVaultKey E stretched_master_key symBytes ivBytes
    let st1 := { st0 with iv := some (hexEncode ivBytes) }
    match itemsResp with
    | .error _ => { store := st1, sent := none, err := .error .fetchItemsFailed }
    | .ok items =>
      match reencryptItems E D st1 old_symmetric_key (hexEncode symBytes) items with
      | .error e => { store := st1, sent := none, err := .error e }
      | .ok new_items =>
        let req : ChangePasswordRequest :=
          { current_auth_hash := old_auth_hash,
            new_auth_hash := auth_hash,
            new_protected_vault_key := encrypted_vault_key,
            new_protected_vault_key_iv := hexEncode ivBytes,
            items := new_items }
        if postOk then
          { store := { st1 with vault_key := some (hexEncode symBytes) },
            sent := some req, err := .ok () }
        else
          { store := st1, sent := some req, err := .error .changePasswordRejected }

/-! ### Concrete instantiations of the external primitives

Used to evaluate the model on concrete inputs: a keyed XOR block permutation
(an involutive `GoodCipher`), and truncation-style stand-ins for the PRF, the
HKDF expansion and the EvpKDF. -/

/-- 16-byte mask derived from a key. -/
def toyMask (k : Str) : Str := ((k ++ List.replicate 16 0).take 16).map (· % 256)

/-- XOR block cipher: an involutive permutation of each 16-byte block. -/
def toyE (k b : Str) : Str := xorB b (toyMask k)

/-- Stand-in PRF with 32-byte output. -/
def toyPrf (x y : Str) : Str := (((x ++ y) ++ List.replicate 32 5).take 32).map (· % 256)

/-- Stand-in HKDF-SHA256 expansion with 64-byte output. -/
def toyHk (x : Str) : Str := ((x ++ List.replicate 64 9).take 64).map (· % 256)

/-- Stand-in EvpKDF: 32-byte key and 16-byte IV from passphrase and salt. -/
def toyKdf (pass salt : Str) : Str × Str :=
  (((pass ++ List.replicate 32 2).take 32).map (· % 256),
   ((salt ++ List.replicate 16 3).take 16).map (· % 256))

/-! ### C1: the rotation run on a concrete account -/

/-- Old 256-bit vault key (as raw bytes; stored hex-encoded). -/
def oldVaultKeyBytes : Str := List.replicate 16 4

/-- The account IV under which existing items were encrypted. -/
def oldAccountIv : Str := List.replicate 16 0

/-- Fresh vault key drawn during the password change. -/
def newVaultKeyBytes : Str := List.replicate 32 6

/-- Fresh IV drawn during the password change (differs from the old IV in its
first byte). -/
def newAccountIv : Str := 1 :: List.replicate 15 0

/-- A stored vault item: its ciphertext was produced under the old vault key
and the old account IV, for the plaintext `"abc"` (`[97, 98, 99]`). -/
def storedItem : RetrievedVaultItem :=
  { site := [115], id := 1, owner_id := 2,
    encrypted_password :=
      base64Encode (aesEncBytes toyE oldVaultKeyBytes oldAccountIv [97, 98, 99]) }

/-- The client store before the password change. -/
def preRotationStore : Store :=
  ⟨none, none, some (hexEncode oldVaultKeyBytes), some (hexEncode oldAccountIv)⟩

/-- The client store after a successful password change: new vault key, new
account IV. -/
def postRotationStore : Store :=
  ⟨none, none, some (hexEncode newVaultKeyBytes), some (hexEncode newAccountIv)⟩

/-- First 3-cycle state of `wPrf`. -/
def wM1 : Str := List.replicate 32 255

/-- Third 3-cycle state of `wPrf`. -/
def wM0 : Str := List.replicate 32 7

/-- Second 3-cycle state of `wPrf`, carrying the password. -/
def wM2 (pw : Str) : Str := (pw ++ List.replicate 32 1).take 32

/-- A PRF whose iteration `u ↦ wPrf pw u` cycles `wM1 → wM2 pw → wM0 → wM1`. -/
def wPrf (pw u : Str) : Str :=
  if u = wM1 then wM2 pw else if u = wM2 pw then wM0 else wM1

/-- One 3-cycle's worth of XOR accumulation. -/
def wT (pw acc : Str) : Str := xorB (xorB (xorB acc (wM2 pw)) wM0) wM1

/-- The registered server state for C4's witness: email `"e"`, password
`"a"`, auth hash as the client derives it at registration. -/
def wSrv : ServerAuthState :=
  { auth_hash := getAuthHash wPrf (calculateMasterKey wPrf [101] [97]) [97],
    access_token := [1], refresh_token := [2], vault_key_fetch_ok := true,
    protected_vault_key := [], protected_vault_key_iv := [] }

/-! ## Lemmas and claim theorems -/

theorem xorB_length (a b : Str) : (xorB a b).length = min a.length b.length := by
  simp [xorB]

theorem xorB_cancel : ∀ (a b : Str), a.length = b.length → xorB (xorB a b) b = a
  | [], [], _ => rfl
  | x :: a, y :: b, h => by
    simp only [xorB, List.zipWith] at *
    refine congrArg₂ _ ?_ (xorB_cancel a b (by simpa using h))
    simp [Nat.xor_assoc]

theorem xor_byte {x y : Nat} (hx : x < 256) (hy : y < 256) : x ^^^ y < 256 := by
  have h : (256 : Nat) = 2 ^ 8 := by norm_num
  rw [h] at hx hy ⊢
  exact Nat.xor_lt_two_pow hx hy

theorem xorB_range : ∀ {a b : Str}, ByteRange a → ByteRange b → ByteRange (xorB a b)
  | [], _, _, _ => by intro x hx; simp [xorB] at hx
  | _ :: _, [], _, _ => by intro x hx; simp [xorB] at hx
  | x :: a, y :: b, ha, hb => by
    intro z hz
    simp only [xorB, List.zipWith, List.mem_cons] at hz
    rcases hz with rfl | hz
    · exact xor_byte (ha x (by simp)) (hb y (by simp))
    · exact xorB_range (fun u hu => ha u (by simp [hu]))
        (fun u hu => hb u (by simp [hu])) z hz

theorem padLen_pos (n : Nat) : 0 < padLen n := by
  simp only [padLen]; omega

theorem padLen_le (n : Nat) : padLen n ≤ 16 := by
  simp only [padLen]; omega

theorem pad16_length_mod (l : Str) : (pad16 l).length % 16 = 0 := by
  simp [pad16, padLen]
  omega

theorem pad16_range {l : Str} (h : ByteRange l) : ByteRange (pad16 l) := by
  intro x hx
  simp only [pad16, List.mem_append] at hx
  rcases hx with hx | hx
  · exact h x hx
  · have := List.eq_of_mem_replicate hx
    subst this
    have := padLen_le l.length
    omega

theorem lastByte_pad16 (l : Str) : lastByte (pad16 l) = padLen l.length := by
  have hpos : 0 < padLen l.length := padLen_pos l.length
  obtain ⟨k, hk⟩ : ∃ k, padLen l.length = k + 1 := ⟨padLen l.length - 1, by omega⟩
  simp only [pad16, lastByte, hk, List.replicate_succ', ← List.append_assoc]
  exact List.getLastD_concat _ _ _

theorem unpad_pad16 (l : Str) : unpadJS (pad16 l) = l := by
  have h1 : unpadJS (pad16 l) =
      (pad16 l).take ((pad16 l).length - lastByte (pad16 l)) := rfl
  rw [h1, lastByte_pad16]
  have h2 : (pad16 l).length = l.length + padLen l.length := by
    simp [pad16]
  rw [h2, Nat.add_sub_cancel]
  exact List.take_left' rfl

theorem chunksGo_nil (fuel : Nat) : chunksGo fuel [] = [] := by
  cases fuel <;> rfl

theorem chunksGo_flatten : ∀ (fuel : Nat) (l : Str), l.length ≤ fuel →
    (chunksGo fuel l).flatten = l
  | _, [], _ => by simp [chunksGo_nil]
  | 0, a :: l, h => by simp at h
  | fuel + 1, a :: l, h => by
    simp only [chunksGo, List.flatten_cons]
    rw [chunksGo_flatten fuel ((a :: l).drop 16) (by simp at h ⊢; omega)]
    exact List.take_append_drop _ _

theorem chunks16_flatten (l : Str) : (chunks16 l).flatten = l :=
  chunksGo_flatten _ _ le_rfl

theorem chunksGo_blocks : ∀ (fuel : Nat) (l : Str), l.length ≤ fuel →
    l.length % 16 = 0 → ∀ c ∈ chunksGo fuel l, c.length = 16
  | _, [], _, _ => by simp [chunksGo_nil]
  | 0, a :: l, h, _ => by simp at h
  | fuel + 1, a :: l, h, hm => by
    intro c hc
    simp only [List.length_cons] at h hm
    have hlen : 16 ≤ l.length + 1 := by omega
    simp only [chunksGo, List.mem_cons] at hc
    rcases hc with rfl | hc
    · rw [List.length_take, List.length_cons]; omega
    · refine chunksGo_blocks fuel _ ?_ ?_ c hc
      · rw [List.length_drop, List.length_cons]; omega
      · rw [List.length_drop, List.length_cons]; omega

theorem chunks16_blocks {l : Str} (hm : l.length % 16 = 0) :
    ∀ c ∈ chunks16 l, c.length = 16 :=
  chunksGo_blocks _ _ le_rfl hm

theorem chunksGo_of_blocks : ∀ (bs : List Str) (fuel : Nat),
    (∀ b ∈ bs, b.length = 16) → bs.flatten.length ≤ fuel →
    chunksGo fuel bs.flatten = bs
  | [], fuel, _, _ => by simp [chunksGo_nil]
  | b :: bs, fuel, hb, hf => by
    have hb16 : b.length = 16 := hb b (by simp)
    have hlen : 16 ≤ (b :: bs).flatten.length := by
      simp only [List.flatten_cons, List.length_append]; omega
    obtain ⟨fuel', rfl⟩ : ∃ f, fuel = f + 1 := ⟨fuel - 1, by omega⟩
    obtain ⟨a, t, heq⟩ : ∃ a t, (b :: bs).flatten = a :: t := by
      cases hfl : (b :: bs).flatten with
      | nil => rw [hfl] at hlen; simp at hlen
      | cons a t => exact ⟨a, t, rfl⟩
    have step : chunksGo (fuel' + 1) ((b :: bs).flatten) =
        ((b :: bs).flatten.take 16) :: chunksGo fuel' ((b :: bs).flatten.drop 16) := by
      rw [heq]
      simp only [chunksGo]
    have htake : (b :: bs).flatten.take 16 = b := by
      simp only [List.flatten_cons]
      rw [← hb16]
      exact List.take_left b bs.flatten
    have hdrop : (b :: bs).flatten.drop 16 = bs.flatten := by
      simp only [List.flatten_cons]
      rw [← hb16]
      exact List.drop_left b bs.flatten
    rw [step, htake, hdrop]
    refine congrArg _ (chunksGo_of_blocks bs fuel' (fun x hx => hb x (by simp [hx])) ?_)
    have h3 : (b :: bs).flatten.length ≤ fuel' + 1 := hf
    simp only [List.flatten_cons, List.length_append, hb16] at h3
    omega

theorem chunks16_of_blocks {bs : List Str} (hb : ∀ b ∈ bs, b.length = 16) :
    chunks16 bs.flatten = bs :=
  chunksGo_of_blocks bs _ hb le_rfl

theorem cbcEncBlocks_spec {E D : Str → Str → Str} (hED : GoodCipher E D) (k : Str) :
    ∀ (bs : List Str) (prev : Str),
      (∀ b ∈ bs, b.length = 16 ∧ ByteRange b) →
      prev.length = 16 → ByteRange prev →
      (∀ c ∈ cbcEncBlocks E k prev bs, c.length = 16 ∧ ByteRange c) ∧
      cbcDecBlocks D k prev (cbcEncBlocks E k prev bs) = bs
  | [], prev, _, _, _ => by simp [cbcEncBlocks, cbcDecBlocks]
  | b :: bs, prev, hbs, hprev, hprevR => by
    obtain ⟨hb, hbR⟩ := hbs b (by simp)
    have hxlen : (xorB b prev).length = 16 := by
      rw [xorB_length, hb, hprev]; simp
    have hxR : ByteRange (xorB b prev) := xorB_range hbR hprevR
    obtain ⟨hclen, hcR, hcinv⟩ := hED k (xorB b prev) hxlen hxR
    have ih := cbcEncBlocks_spec hED k bs (E k (xorB b prev))
      (fun x hx => hbs x (by simp [hx])) hclen hcR
    constructor
    · intro c hc
      simp only [cbcEncBlocks, List.mem_cons] at hc
      rcases hc with rfl | hc
      · exact ⟨hclen, hcR⟩
      · exact ih.1 c hc
    · simp only [cbcEncBlocks, cbcDecBlocks]
      rw [hcinv, xorB_cancel b prev (by omega), ih.2]

theorem hexCharDec_hexChar : ∀ n < 16, hexCharDec (hexChar n) = n := by decide

theorem hexChar_range : ∀ n < 16, hexChar n < 256 := by decide

theorem hex_roundtrip : ∀ {l : Str}, ByteRange l → hexDecode (hexEncode l) = l
  | [], _ => rfl
  | a :: rest, h => by
    have ha : a < 256 := h a (by simp)
    simp only [hexEncode, hexDecode]
    rw [hexCharDec_hexChar (a / 16) (by omega), hexCharDec_hexChar (a % 16) (by omega),
      hex_roundtrip (fun x hx => h x (by simp [hx]))]
    congr 1
    omega

theorem hexEncode_length : ∀ l : Str, (hexEncode l).length = 2 * l.length
  | [] => rfl
  | a :: rest => by
    simp only [hexEncode, List.length_cons, hexEncode_length rest]
    omega

theorem hexEncode_range : ∀ {l : Str}, ByteRange l → ByteRange (hexEncode l)
  | [], _ => by intro x hx; simp [hexEncode] at hx
  | a :: rest, h => by
    intro x hx
    have ha : a < 256 := h a (by simp)
    have h16 : ∀ n, n < 16 → hexChar n < 256 := by
      intro n hn; simp only [hexChar]; split <;> omega
    simp only [hexEncode, List.mem_cons] at hx
    rcases hx with rfl | hx
    · exact h16 _ (by omega)
    rcases hx with rfl | hx
    · exact h16 _ (by omega)
    · exact hexEncode_range (fun u hu => h u (by simp [hu])) x hx

theorem b64CharDec_b64Char : ∀ n < 64, b64CharDec (b64Char n) = n := by decide

theorem b64Char_ne_61 : ∀ n < 64, b64Char n ≠ 61 := by decide

theorem base64Decode_pad2 (w x : Nat) :
    base64Decode [w, x, 61, 61] = [b64CharDec w * 4 + b64CharDec x / 16] := by
  simp [base64Decode]

theorem base64Decode_pad1 (w x y : Nat) (hy : y ≠ 61) :
    base64Decode [w, x, y, 61] =
      [b64CharDec w * 4 + b64CharDec x / 16,
       b64CharDec x % 16 * 16 + b64CharDec y / 4] := by
  simp [base64Decode, hy]

theorem base64Decode_full (w x y z : Nat) (rest : Str) (hz : z ≠ 61) :
    base64Decode (w :: x :: y :: z :: rest) =
      (b64CharDec w * 4 + b64CharDec x / 16) ::
      (b64CharDec x % 16 * 16 + b64CharDec y / 4) ::
      (b64CharDec y % 4 * 64 + b64CharDec z) :: base64Decode rest := by
  simp [base64Decode, hz]

theorem base64_roundtrip : ∀ {l : Str}, ByteRange l → base64Decode (base64Encode l) = l
  | [], _ => rfl
  | [a], h => by
    have ha : a < 256 := h a (by simp)
    show base64Decode [b64Char (a / 4), b64Char (a % 4 * 16), 61, 61] = [a]
    rw [base64Decode_pad2,
      b64CharDec_b64Char (a / 4) (by omega), b64CharDec_b64Char (a % 4 * 16) (by omega)]
    congr 1
    omega
  | [a, b], h => by
    have ha : a < 256 := h a (by simp)
    have hb : b < 256 := h b (by simp)
    show base64Decode
      [b64Char (a / 4), b64Char (a % 4 * 16 + b / 16), b64Char (b % 16 * 4), 61] = [a, b]
    rw [base64Decode_pad1 _ _ _ (b64Char_ne_61 (b % 16 * 4) (by omega)),
      b64CharDec_b64Char (a / 4) (by omega),
      b64CharDec_b64Char (a % 4 * 16 + b / 16) (by omega),
      b64CharDec_b64Char (b % 16 * 4) (by omega)]
    congr 1
    · omega
    congr 1
    omega
  | a :: b :: c :: rest, h => by
    have ha : a < 256 := h a (by simp)
    have hb : b < 256 := h b (by simp)
    have hc : c < 256 := h c (by simp)
    show base64Decode (b64Char (a / 4) :: b64Char (a % 4 * 16 + b / 16) ::
      b64Char (b % 16 * 4 + c / 64) :: b64Char (c % 64) :: base64Encode rest) = _
    rw [base64Decode_full _ _ _ _ _ (b64Char_ne_61 (c % 64) (by omega)),
      b64CharDec_b64Char (a / 4) (by omega),
      b64CharDec_b64Char (a % 4 * 16 + b / 16) (by omega),
      b64CharDec_b64Char (b % 16 * 4 + c / 64) (by omega),
      b64CharDec_b64Char (c % 64) (by omega)]
    rw [base64_roundtrip (fun x hx => h x (by simp [hx]))]
    congr 1
    · omega
    congr 1
    · omega
    congr 1
    omega

theorem toLowerAscii_idem (l : Str) : toLowerAscii (toLowerAscii l) = toLowerAscii l := by
  simp only [toLowerAscii, List.map_map]
  refine List.map_congr_left fun b _ => ?_
  simp only [Function.comp_apply]
  rcases Decidable.em (65 ≤ b ∧ b ≤ 90) with h | h
  · rw [if_pos h, if_neg (by omega)]
  · rw [if_neg h, if_neg h]

theorem blockGo_length {prf : Str → Str → Str} {pw : Str} {L : Nat}
    (hprf : ∀ x y, (prf x y).length = L) :
    ∀ (n : Nat) (u acc : Str), acc.length = L → (blockGo prf pw n u acc).length = L
  | 0, _, _, h => h
  | n + 1, u, acc, h => by
    simp only [blockGo]
    exact blockGo_length hprf n _ _ (by rw [xorB_length, h, hprf]; simp)

theorem pbkdf2Block_length {prf : Str → Str → Str} {pw : Str} {L : Nat}
    (hprf : ∀ x y, (prf x y).length = L) (salt : Str) (c i : Nat) :
    (pbkdf2Block prf pw salt c i).length = L := by
  simp only [pbkdf2Block]
  exact blockGo_length hprf _ _ _ (hprf _ _)

theorem pbkdf2Go_length {prf : Str → Str → Str} {L : Nat}
    (hprf : ∀ x y, (prf x y).length = L) (hL : 0 < L) (pw salt : Str) (c dkLen : Nat) :
    ∀ (fuel i : Nat) (acc : Str), dkLen ≤ acc.length + fuel →
      dkLen ≤ (pbkdf2Go prf pw salt c dkLen fuel i acc).length
  | 0, _, acc, h => by simpa using h
  | fuel + 1, i, acc, h => by
    simp only [pbkdf2Go]
    split
    · assumption
    · refine pbkdf2Go_length hprf hL pw salt c dkLen fuel (i + 1) _ ?_
      rw [List.length_append, pbkdf2Block_length hprf]
      omega

theorem pbkdf2_length {prf : Str → Str → Str} {L : Nat}
    (hprf : ∀ x y, (prf x y).length = L) (hL : 0 < L) (pw salt : Str) (c dkLen : Nat) :
    (pbkdf2 prf pw salt c dkLen).length = dkLen := by
  simp only [pbkdf2, List.length_take]
  have h := pbkdf2Go_length hprf hL pw salt c dkLen dkLen 1 [] (by simp)
  omega

theorem aesEncBytes_spec {E D : Str → Str → Str} (hED : GoodCipher E D)
    (key : Str) {iv msg : Str} (hiv : iv.length = 16) (hivR : ByteRange iv)
    (hmsg : ByteRange msg) :
    (∀ c ∈ chunks16 (aesEncBytes E key iv msg), c.length = 16) ∧
    ByteRange (aesEncBytes E key iv msg) ∧
    aesDecBytes D key iv (aesEncBytes E key iv msg) = msg := by
  have hblocks : ∀ b ∈ chunks16 (pad16 msg), b.length = 16 ∧ ByteRange b := by
    intro b hb
    refine ⟨chunks16_blocks (pad16_length_mod msg) b hb, ?_⟩
    intro x hx
    refine pad16_range hmsg x ?_
    rw [← chunks16_flatten (pad16 msg)]
    exact List.mem_flatten.mpr ⟨b, hb, hx⟩
  obtain ⟨hct, hinv⟩ := cbcEncBlocks_spec hED key (chunks16 (pad16 msg)) iv hblocks hiv hivR
  have hchunks : chunks16 (aesEncBytes E key iv msg) =
      cbcEncBlocks E key iv (chunks16 (pad16 msg)) :=
    chunks16_of_blocks (fun c hc => (hct c hc).1)
  refine ⟨?_, ?_, ?_⟩
  · intro c hc
    rw [hchunks] at hc
    exact (hct c hc).1
  · intro x hx
    simp only [aesEncBytes] at hx
    rw [List.mem_flatten] at hx
    obtain ⟨c, hc, hx⟩ := hx
    exact (hct c hc).2 x hx
  · simp only [aesDecBytes]
    rw [hchunks, hinv, chunks16_flatten]
    exact unpad_pad16 msg

theorem toyMask_length (k : Str) : (toyMask k).length = 16 := by
  simp [toyMask]

theorem toyMask_range (k : Str) : ByteRange (toyMask k) := by
  intro x hx
  simp only [toyMask, List.mem_map] at hx
  obtain ⟨y, _, rfl⟩ := hx
  exact Nat.mod_lt _ (by norm_num)

theorem toyE_good : GoodCipher toyE toyE := by
  intro k b hb hbR
  have hlen : (toyE k b).length = 16 := by
    rw [toyE, xorB_length, hb, toyMask_length]
    simp
  refine ⟨hlen, ?_, ?_⟩
  · exact xorB_range hbR (toyMask_range k)
  · simp only [toyE]
    exact xorB_cancel _ _ (by rw [hb, toyMask_length])

theorem toyPrf_length (x y : Str) : (toyPrf x y).length = 32 := by
  simp [toyPrf]
  omega

theorem toyKdf_iv_length (pass salt : Str) : (toyKdf pass salt).2.length = 16 := by
  simp [toyKdf]

theorem toyKdf_iv_range (pass salt : Str) : ByteRange (toyKdf pass salt).2 := by
  intro x hx
  simp only [toyKdf, List.mem_map] at hx
  obtain ⟨y, _, rfl⟩ := hx
  exact Nat.mod_lt _ (by norm_num)

/-! ## Claim theorems -/

/-- C10.  `logout` removes only the `token` entry: for every prior store
state, `vault_key`, `iv` and `refresh_token` keep their values, and the
unlocked vault key is not cleared. -/
theorem logout_removes_only_token (st : Store) :
    (logout st).vault_key = st.vault_key ∧ (logout st).iv = st.iv ∧
    (logout st).refresh_token = st.refresh_token ∧ (logout st).token = none := by
  simp [logout]

/-- C8.  With no resident vault key (`getVaultKey` returns `null`), both
`encryptVaultPassword` and `decryptVaultPassword` of `utils/encryption.tsx`
fail with the vault-locked error and return no ciphertext or plaintext. -/
theorem encrypt_decrypt_require_vault_key (E D : Str → Str → Str)
    (kdf : Str → Str → Str × Str) (st : Store) (salt pt ct : Str)
    (hvk : st.vault_key = none) :
    Enc1.encryptVaultPassword E kdf st salt pt = .error .vaultKeyNotSet ∧
    Enc1.decryptVaultPassword D kdf st ct = .error .vaultKeyNotSet := by
  constructor
  · simp [Enc1.encryptVaultPassword, hvk, jsPresent]
  · simp [Enc1.decryptVaultPassword, hvk, jsPresent]

/-- Witness for C8 at a concrete locked store. -/
theorem encrypt_decrypt_require_vault_key_witness :
    Enc1.encryptVaultPassword toyE toyKdf ⟨none, none, none, none⟩ [1] [2] =
      .error .vaultKeyNotSet ∧
    Enc1.decryptVaultPassword toyE toyKdf ⟨none, none, none, none⟩ [3] =
      .error .vaultKeyNotSet :=
  encrypt_decrypt_require_vault_key toyE toyE toyKdf ⟨none, none, none, none⟩ [1] [2] [3] rfl

/-- C7.  `calculateMasterKey` is PBKDF2 (keyed by the abstract PRF) with salt
the lower-cased email, the hard-coded iteration count 10000 ≥ 10000 and
256-bit (32-byte) output; lower-casing the email first does not change the
result. -/
theorem calculateMasterKey_spec (prf : Str → Str → Str) (L : Nat)
    (hprf : ∀ x y, (prf x y).length = L) (hL : 0 < L) (email password : Str) :
    calculateMasterKey prf email password =
      pbkdf2 prf password (toLowerAscii email) pbkdfIterations 32 ∧
    10000 ≤ pbkdfIterations ∧
    calculateMasterKey prf email password =
      calculateMasterKey prf (toLowerAscii email) password ∧
    (calculateMasterKey prf email password).length = 32 := by
  refine ⟨rfl, le_refl _, ?_, ?_⟩
  · simp only [calculateMasterKey, toLowerAscii_idem]
  · exact pbkdf2_length hprf hL _ _ _ _

/-- Witness for C7 with the stand-in PRF at a concrete email and password. -/
theorem calculateMasterKey_spec_witness :
    calculateMasterKey toyPrf [65, 64, 98, 46, 99] [112] =
      pbkdf2 toyPrf [112] (toLowerAscii [65, 64, 98, 46, 99]) pbkdfIterations 32 ∧
    10000 ≤ pbkdfIterations ∧
    calculateMasterKey toyPrf [65, 64, 98, 46, 99] [112] =
      calculateMasterKey toyPrf (toLowerAscii [65, 64, 98, 46, 99]) [112] ∧
    (calculateMasterKey toyPrf [65, 64, 98, 46, 99] [112]).length = 32 :=
  calculateMasterKey_spec toyPrf 32 toyPrf_length (by norm_num) _ _

/-! ### Round-trip lemmas for the two cipher variants -/

theorem jsPresent_of_ne {s : Str} (h : s ≠ []) : jsPresent (some s) = some s := by
  cases s with
  | nil => exact absurd rfl h
  | cons a t => rfl

theorem byteRange_append {a b : Str} (ha : ByteRange a) (hb : ByteRange b) :
    ByteRange (a ++ b) := by
  intro x hx
  rcases List.mem_append.mp hx with h | h
  · exact ha x h
  · exact hb x h

theorem saltedMagic_range : ByteRange saltedMagic := by decide

/-- Round trip of the passphrase-keyed variant (`utils/encryption.tsx`):
decrypting an `encryptVaultPassword` output with the same resident vault key
recovers the plaintext. -/
theorem enc1_roundtrip (E D : Str → Str → Str) (hED : GoodCipher E D)
    (kdf : Str → Str → Str × Str) (st : Store) (pass salt p : Str)
    (hvk : st.vault_key = some pass) (hpass : pass ≠ [])
    (hsalt : salt.length = 8) (hsaltR : ByteRange salt)
    (hkl : (kdf pass salt).2.length = 16) (hkR : ByteRange (kdf pass salt).2)
    (hp : ByteRange p) (hputf : isValidUtf8 p = true) :
    (Enc1.encryptVaultPassword E kdf st salt p).bind
      (fun c => Enc1.decryptVaultPassword D kdf st c) = .ok p := by
  have hjs := jsPresent_of_ne hpass
  obtain ⟨-, hctR, hdec⟩ := aesEncBytes_spec hED (kdf pass salt).1 hkl hkR hp
  set ct := aesEncBytes E (kdf pass salt).1 (kdf pass salt).2 p with hct
  have henc : Enc1.encryptVaultPassword E kdf st salt p =
      .ok (base64Encode (saltedMagic ++ salt ++ ct)) := by
    simp only [Enc1.encryptVaultPassword, hvk, hjs, hct]
  rw [henc]
  show Enc1.decryptVaultPassword D kdf st (base64Encode (saltedMagic ++ salt ++ ct)) = .ok p
  have hraw : base64Decode (base64Encode (saltedMagic ++ salt ++ ct)) =
      saltedMagic ++ salt ++ ct :=
    base64_roundtrip (byteRange_append (byteRange_append saltedMagic_range hsaltR) hctR)
  have htake8 : (saltedMagic ++ salt ++ ct).take 8 = saltedMagic := by
    rw [List.append_assoc]
    exact List.take_left' rfl
  have hdrop8 : ((saltedMagic ++ salt ++ ct).drop 8).take 8 = salt := by
    rw [List.append_assoc, List.drop_left' (show saltedMagic.length = 8 from rfl)]
    exact List.take_left' hsalt
  have hdrop16 : (saltedMagic ++ salt ++ ct).drop 16 = ct :=
    List.drop_left' (by simp [saltedMagic, hsalt])
  simp only [Enc1.decryptVaultPassword, hvk, hjs, hraw, htake8, hdrop8, hdrop16,
    if_pos rfl, hdec, utf8Stringify, hputf, if_true]

/-- Round trip of the raw-key variant (part_016): decrypting an
`encryptVaultPassword` output with the same resident vault key and stored IV
recovers the plaintext. -/
theorem enc2_roundtrip (E D : Str → Str → Str) (hED : GoodCipher E D)
    (st : Store) (ks ivs p : Str)
    (hvk : st.vault_key = some ks) (hks : ks ≠ [])
    (hiv : st.iv = some ivs) (hivs : ivs ≠ [])
    (hdl : (hexDecode ivs).length = 16) (hdR : ByteRange (hexDecode ivs))
    (hp : ByteRange p) (hputf : isValidUtf8 p = true) :
    (Enc2.encryptVaultPassword E st p none).bind
      (fun c => Enc2.decryptVaultPassword D st c none) = .ok p := by
  obtain ⟨-, hctR, hdec⟩ := aesEncBytes_spec hED (hexDecode ks) hdl hdR hp
  set ct := aesEncBytes E (hexDecode ks) (hexDecode ivs) p with hct
  have henc : Enc2.encryptVaultPassword E st p none = .ok (base64Encode ct) := by
    simp only [Enc2.encryptVaultPassword, orFalsy, jsPresent, hvk,
      jsPresent_of_ne hks, jsPresent_of_ne hivs, hiv, hct]
  rw [henc]
  show Enc2.decryptVaultPassword D st (base64Encode ct) none = .ok p
  simp only [Enc2.decryptVaultPassword, orFalsy, jsPresent, hvk,
    jsPresent_of_ne hks, jsPresent_of_ne hivs, hiv,
    base64_roundtrip hctR, hdec, utf8Stringify, hputf, if_true]

/-- C5.  Encrypt/decrypt round trip, for both source variants of the vault
cipher: with the same resident vault key (and, in the IV-taking part_016
variant, the same stored IV), `decryptVaultPassword (encryptVaultPassword p)`
returns exactly `p`. -/
theorem vault_cipher_roundtrip (E D : Str → Str → Str) (hED : GoodCipher E D)
    (kdf : Str → Str → Str × Str)
    (st1 st2 : Store) (pass salt ks ivs p : Str)
    (hp : ByteRange p) (hputf : isValidUtf8 p = true)
    (hvk1 : st1.vault_key = some pass) (hpass : pass ≠ [])
    (hsalt : salt.length = 8) (hsaltR : ByteRange salt)
    (hkl : (kdf pass salt).2.length = 16) (hkR : ByteRange (kdf pass salt).2)
    (hvk2 : st2.vault_key = some ks) (hks : ks ≠ [])
    (hiv2 : st2.iv = some ivs) (hivs : ivs ≠ [])
    (hdl : (hexDecode ivs).length = 16) (hdR : ByteRange (hexDecode ivs)) :
    (Enc1.encryptVaultPassword E kdf st1 salt p).bind
      (fun c => Enc1.decryptVaultPassword D kdf st1 c) = .ok p ∧
    (Enc2.encryptVaultPassword E st2 p none).bind
      (fun c => Enc2.decryptVaultPassword D st2 c none) = .ok p :=
  ⟨enc1_roundtrip E D hED kdf st1 pass salt p hvk1 hpass hsalt hsaltR hkl hkR hp hputf,
   enc2_roundtrip E D hED st2 ks ivs p hvk2 hks hiv2 hivs hdl hdR hp hputf⟩

/-- Witness for C5: both round trips at concrete stores, keys and plaintext. -/
theorem vault_cipher_roundtrip_witness :
    (Enc1.encryptVaultPassword toyE toyKdf
        ⟨none, none, some [5, 6], none⟩ [7, 7, 7, 7, 7, 7, 7, 7] [104, 105]).bind
      (fun c => Enc1.decryptVaultPassword toyE toyKdf
        ⟨none, none, some [5, 6], none⟩ c) = .ok [104, 105] ∧
    (Enc2.encryptVaultPassword toyE
        ⟨none, none, some [48, 49], some (hexEncode (List.replicate 16 0))⟩
        [104, 105] none).bind
      (fun c => Enc2.decryptVaultPassword toyE
        ⟨none, none, some [48, 49], some (hexEncode (List.replicate 16 0))⟩
        c none) = .ok [104, 105] :=
  vault_cipher_roundtrip toyE toyE toyE_good toyKdf
    ⟨none, none, some [5, 6], none⟩
    ⟨none, none, some [48, 49], some (hexEncode (List.replicate 16 0))⟩
    [5, 6] [7, 7, 7, 7, 7, 7, 7, 7] [48, 49] (hexEncode (List.replicate 16 0)) [104, 105]
    (by decide) (by decide) rfl (by decide) (by decide) (by decide)
    (toyKdf_iv_length _ _) (toyKdf_iv_range _ _) rfl (by decide) rfl (by decide)
    (by decide) (by decide)

/-- C6.  Wrap/unwrap round trip of the vault key: unwrapping as the login
code does (Base64-parse, AES-decrypt under the stretched master key with the
hex-parsed IV) the value produced by registration (AES-encrypt of the raw
256-bit vault key under the stretched master key with that 128-bit IV,
serialised to a string) returns the original vault key. -/
theorem wrap_unwrap_roundtrip (E D : Str → Str → Str) (hED : GoodCipher E D)
    (stretched_master_key symBytes ivBytes : Str)
    (hsym : symBytes.length = 32) (hsymR : ByteRange symBytes)
    (hiv : ivBytes.length = 16) (hivR : ByteRange ivBytes) :
    unwrapVaultKey D stretched_master_key
      (wrapVaultKey E stretched_master_key symBytes ivBytes)
      (hexEncode ivBytes) = symBytes := by
  obtain ⟨-, hctR, hdec⟩ :=
    aesEncBytes_spec hED stretched_master_key hiv hivR hsymR
  simp only [unwrapVaultKey, wrapVaultKey]
  rw [base64_roundtrip hctR, hex_roundtrip hivR]
  exact hdec

/-- Witness for C6 at a concrete stretched key, vault key and IV. -/
theorem wrap_unwrap_roundtrip_witness :
    unwrapVaultKey toyE (toyHk [1, 2])
      (wrapVaultKey toyE (toyHk [1, 2]) (List.replicate 32 6) (List.replicate 16 0))
      (hexEncode (List.replicate 16 0)) = List.replicate 32 6 :=
  wrap_unwrap_roundtrip toyE toyE toyE_good (toyHk [1, 2])
    (List.replicate 32 6) (List.replicate 16 0)
    (by decide) (by decide) (by decide) (by decide)

/-- C3 (amended).  With an unlocked vault, `decryptVaultPassword` applies no
key-integrity check at all: it either returns whatever the byte-level CBC
decryption produced, or fails with the UTF-8 decoding error — the only
failure it can signal.  In particular a wrong-key decryption is not
guaranteed to fail (see the counterexample). -/
theorem decrypt_failure_only_utf8 (D : Str → Str → Str)
    (kdf : Str → Str → Str × Str) (st : Store) (pass ct : Str)
    (hvk : st.vault_key = some pass) (hpass : pass ≠ []) :
    Enc1.decryptVaultPassword D kdf st ct ≠ .error .vaultKeyNotSet ∧
    ((∃ s, Enc1.decryptVaultPassword D kdf st ct = .ok s) ∨
      Enc1.decryptVaultPassword D kdf st ct = .error .malformedUtf8) := by
  have hjs := jsPresent_of_ne hpass
  simp only [Enc1.decryptVaultPassword, hvk, hjs]
  set bytes := aesDecBytes D (kdf pass
    (if (base64Decode ct).take 8 = saltedMagic
      then ((base64Decode ct).drop 8).take 8 else [])).1
    (kdf pass (if (base64Decode ct).take 8 = saltedMagic
      then ((base64Decode ct).drop 8).take 8 else [])).2
    (if (base64Decode ct).take 8 = saltedMagic
      then (base64Decode ct).drop 16 else base64Decode ct) with hbytes
  rcases hu : utf8Stringify bytes with - | s
  · simp [hu]
  · simp [hu]

/-- Witness for C3's amended theorem at a concrete store and ciphertext. -/
theorem decrypt_failure_only_utf8_witness :
    Enc1.decryptVaultPassword toyE toyKdf ⟨none, none, some [9], none⟩ [65, 66] ≠
      .error .vaultKeyNotSet ∧
    ((∃ s, Enc1.decryptVaultPassword toyE toyKdf ⟨none, none, some [9], none⟩ [65, 66] =
        .ok s) ∨
      Enc1.decryptVaultPassword toyE toyKdf ⟨none, none, some [9], none⟩ [65, 66] =
        .error .malformedUtf8) :=
  decrypt_failure_only_utf8 toyE toyKdf ⟨none, none, some [9], none⟩ [9] [65, 66]
    rfl (by decide)

/-- Counterexample to C3 as stated: a concrete plaintext and two distinct
vault keys for which decrypting under the wrong key silently returns, without
any error, a plaintext different from the original. -/
theorem cross_key_decrypt_silent :
    (Enc1.encryptVaultPassword toyE toyKdf
        ⟨none, none, some (List.replicate 16 0), none⟩
        (List.replicate 8 7) [97, 98, 99]).bind
      (fun c => Enc1.decryptVaultPassword toyE toyKdf
        ⟨none, none, some (1 :: List.replicate 15 0), none⟩ c) = .ok [96, 98, 99] ∧
    (List.replicate 16 0 : Str) ≠ 1 :: List.replicate 15 0 ∧
    ([96, 98, 99] : Str) ≠ [97, 98, 99] := by decide

/-! ### Rotation: atomicity and content claims -/

theorem storeAfterLogoutCheck_vault_key (st : Store) :
    (storeAfterLogoutCheck st).vault_key = st.vault_key := by
  cases h : jsPresent st.vault_key <;> simp [storeAfterLogoutCheck, h, logout]

theorem reencryptItems_length (E D : Str → Str → Str) (st : Store)
    (oldKey : Option Str) (newKeyHex : Str) :
    ∀ (items l : List RetrievedVaultItem),
      reencryptItems E D st oldKey newKeyHex items = .ok l → l.length = items.length
  | [], l, h => by
    simp only [reencryptItems] at h
    cases h
    rfl
  | item :: rest, l, h => by
    simp only [reencryptItems] at h
    rcases hd : Enc2.decryptVaultPassword D st item.encrypted_password oldKey with e | oldpw
    · simp only [hd] at h
      cases h
    · simp only [hd] at h
      rcases he : Enc2.encryptVaultPassword E st oldpw (some newKeyHex) with e | newct
      · simp only [he] at h
        cases h
      · simp only [he] at h
        rcases hr : reencryptItems E D st oldKey newKeyHex rest with e | rest2
        · simp only [hr] at h
          cases h
        · simp only [hr] at h
          cases h
          simp [reencryptItems_length E D st oldKey newKeyHex rest rest2 hr]

/-- C2 (amended).  Whenever a rotation run fails — mismatched confirmation,
failed item fetch, a failed item decrypt/re-encrypt, or a server-rejected
post — the vault key entry is left unchanged, and any batch that was posted
contains one re-encrypted entry per fetched item (never a partial batch).
However, once the run passes the confirmation check, the stored `iv` entry
has already been overwritten with the new IV, even if the rotation
subsequently fails. -/
theorem changePassword_failure_atomicity (E D : Str → Str → Str)
    (prf : Str → Str → Str) (hk : Str → Str) (st : Store)
    (email oldP newP confP symBytes ivBytes : Str)
    (itemsResp : Except Str (List RetrievedVaultItem)) (postOk : Bool) :
    (¬ (changePassword E D prf hk st email oldP newP confP symBytes ivBytes
          itemsResp postOk).err.isOk = true →
      (changePassword E D prf hk st email oldP newP confP symBytes ivBytes
          itemsResp postOk).store.vault_key = st.vault_key) ∧
    (∀ req, (changePassword E D prf hk st email oldP newP confP symBytes ivBytes
          itemsResp postOk).sent = some req →
      ∃ items, itemsResp = .ok items ∧ req.items.length = items.length) ∧
    (newP = confP →
      (changePassword E D prf hk st email oldP newP confP symBytes ivBytes
          itemsResp postOk).store.iv = some (hexEncode ivBytes)) := by
  by_cases hm : newP = confP
  · subst hm
    cases itemsResp with
    | error e =>
      have hr : changePassword E D prf hk st email oldP newP newP symBytes ivBytes
          (.error e) postOk =
          { store := { storeAfterLogoutCheck st with iv := some (hexEncode ivBytes) },
            sent := none, err := .error .fetchItemsFailed } := by
        simp [changePassword]
      rw [hr]
      refine ⟨fun _ => ?_, fun req h => by simp at h, fun _ => rfl⟩
      exact storeAfterLogoutCheck_vault_key st
    | ok items =>
      rcases hre : reencryptItems E D
          { storeAfterLogoutCheck st with iv := some (hexEncode ivBytes) }
          st.vault_key (hexEncode symBytes) items with e | new_items
      · have hr : changePassword E D prf hk st email oldP newP newP symBytes ivBytes
            (.ok items) postOk =
            { store := { storeAfterLogoutCheck st with iv := some (hexEncode ivBytes) },
              sent := none, err := .error e } := by
          simp [changePassword, hre]
        rw [hr]
        refine ⟨fun _ => ?_, fun req h => by simp at h, fun _ => rfl⟩
        exact storeAfterLogoutCheck_vault_key st
      · have hlen := reencryptItems_length E D
          { storeAfterLogoutCheck st with iv := some (hexEncode ivBytes) }
          st.vault_key (hexEncode symBytes) items new_items hre
        cases postOk with
        | true =>
          have hr : changePassword E D prf hk st email oldP newP newP symBytes ivBytes
              (.ok items) true =
              { store := { storeAfterLogoutCheck st with
                  iv := some (hexEncode ivBytes),
                  vault_key := some (hexEncode symBytes) },
                sent := some
                  { current_auth_hash := getAuthHash prf
                      (calculateMasterKey prf email oldP) oldP,
                    new_auth_hash := getAuthHash prf
                      (calculateMasterKey prf email newP) newP,
                    new_protected_vault_key := wrapVaultKey E
                      (stretchedMasterKey hk (calculateMasterKey prf email newP))
                      symBytes ivBytes,
                    new_protected_vault_key_iv := hexEncode ivBytes,
                    items := new_items },
                err := .ok () } := by
            simp [changePassword, hre]
          rw [hr]
          refine ⟨fun hfail => absurd rfl hfail, fun req h => ?_, fun _ => rfl⟩
          simp only [Option.some.injEq] at h
          subst h
          exact ⟨items, rfl, hlen⟩
        | false =>
          have hr : changePassword E D prf hk st email oldP newP newP symBytes ivBytes
              (.ok items) false =
              { store := { storeAfterLogoutCheck st with iv := some (hexEncode ivBytes) },
                sent := some
                  { current_auth_hash := getAuthHash prf
                      (calculateMasterKey prf email oldP) oldP,
                    new_auth_hash := getAuthHash prf
                      (calculateMasterKey prf email newP) newP,
                    new_protected_vault_key := wrapVaultKey E
                      (stretchedMasterKey hk (calculateMasterKey prf email newP))
                      symBytes ivBytes,
                    new_protected_vault_key_iv := hexEncode ivBytes,
                    items := new_items },
                err := .error .changePasswordRejected } := by
            simp [changePassword, hre]
          rw [hr]
          refine ⟨fun _ => ?_, fun req h => ?_, fun _ => rfl⟩
          · exact storeAfterLogoutCheck_vault_key st
          · simp only [Option.some.injEq] at h
            subst h
            exact ⟨items, rfl, hlen⟩
  · have hr : changePassword E D prf hk st email oldP newP confP symBytes ivBytes
        itemsResp postOk =
        { store := st, sent := none, err := .error .passwordsDontMatch } := by
      simp [changePassword, hm]
    rw [hr]
    exact ⟨fun _ => rfl, fun req h => by simp at h, fun hc => absurd hc hm⟩

/-- Witness for C2's amended theorem: a failed fetch leaves the vault key
unchanged, and the iv entry holds the new IV. -/
theorem changePassword_failure_atomicity_witness :
    (changePassword toyE toyE toyPrf toyHk
        ⟨none, none, some [48, 49], some (hexEncode (List.replicate 16 0))⟩
        [101] [97] [98] [98] (List.replicate 32 6) (1 :: List.replicate 15 0)
        (.error [50]) true).store.vault_key = some [48, 49] ∧
    (changePassword toyE toyE toyPrf toyHk
        ⟨none, none, some [48, 49], some (hexEncode (List.replicate 16 0))⟩
        [101] [97] [98] [98] (List.replicate 32 6) (1 :: List.replicate 15 0)
        (.error [50]) true).store.iv = some (hexEncode (1 :: List.replicate 15 0)) := by
  have h := changePassword_failure_atomicity toyE toyE toyPrf toyHk
    ⟨none, none, some [48, 49], some (hexEncode (List.replicate 16 0))⟩
    [101] [97] [98] [98] (List.replicate 32 6) (1 :: List.replicate 15 0)
    (.error [50]) true
  exact ⟨h.1 (by decide), h.2.2 rfl⟩

/-- Counterexample to C2 as stated: on a failed rotation (the item fetch is
rejected) nothing is submitted and the vault key survives, but the stored
`iv` entry does *not* keep its old value — it was already overwritten with
the new IV. -/
theorem changePassword_iv_overwritten_on_failure :
    (changePassword toyE toyE toyPrf toyHk
        ⟨none, none, some [48, 49], some (hexEncode (List.replicate 16 0))⟩
        [101] [97] [98] [98] (List.replicate 32 6) (1 :: List.replicate 15 0)
        (.error [50]) true).err = .error .fetchItemsFailed ∧
    (changePassword toyE toyE toyPrf toyHk
        ⟨none, none, some [48, 49], some (hexEncode (List.replicate 16 0))⟩
        [101] [97] [98] [98] (List.replicate 32 6) (1 :: List.replicate 15 0)
        (.error [50]) true).sent = none ∧
    (changePassword toyE toyE toyPrf toyHk
        ⟨none, none, some [48, 49], some (hexEncode (List.replicate 16 0))⟩
        [101] [97] [98] [98] (List.replicate 32 6) (1 :: List.replicate 15 0)
        (.error [50]) true).store.iv ≠
      (⟨none, none, some [48, 49], some (hexEncode (List.replicate 16 0))⟩ : Store).iv := by
  decide

set_option synthInstance.maxSize 1024 in
/-- C1 evaluated at the failing input: the rotation run succeeds and keeps
`site`/`id`/`owner_id`, but the re-encrypted batch entry decrypts under the
new vault key (with the new stored IV) to `[96, 98, 99]`, while the original
item under the old vault key (old stored IV) decrypts to `[97, 98, 99]` —
the content is not preserved, because the new IV is written to the store
before the old items are decrypted and `decryptVaultPassword` ignores the
`old_iv` argument the caller passes. -/
theorem rotation_garbles_first_block :
    (changePassword toyE toyE toyPrf toyHk preRotationStore
        [101] [97] [98] [98] newVaultKeyBytes newAccountIv
        (.ok [storedItem]) true).err = .ok () ∧
    ((changePassword toyE toyE toyPrf toyHk preRotationStore
        [101] [97] [98] [98] newVaultKeyBytes newAccountIv
        (.ok [storedItem]) true).sent.map fun req => req.items.map fun it =>
          (it.site, it.id, it.owner_id,
            Enc2.decryptVaultPassword toyE postRotationStore it.encrypted_password none))
      = some [([115], 1, 2, .ok [96, 98, 99])] ∧
    Enc2.decryptVaultPassword toyE preRotationStore storedItem.encrypted_password none
      = .ok [97, 98, 99] ∧
    ([96, 98, 99] : Str) ≠ [97, 98, 99] := by
  decide

/-! ### C9: input validation -/

theorem getAuthHash_length {prf : Str → Str → Str} {L : Nat}
    (hprf : ∀ x y, (prf x y).length = L) (hL : 0 < L) (mk s : Str) :
    (getAuthHash prf mk s).length = 64 := by
  simp only [getAuthHash, hexEncode_length, pbkdf2_length hprf hL]

/-- C9 (amended).  Only the registration screen validates inputs: an empty
email or password, or an invalid email, makes `handleRegister` return its
validation error before any key derivation, with no payload sent and the
store untouched.  (`calculateMasterKey` itself and the login path perform no
input validation at all — see the counterexample.) -/
theorem register_validates_before_crypto (E : Str → Str → Str)
    (prf : Str → Str → Str) (hk : Str → Str) (st : Store)
    (email password symBytes ivBytes : Str) (registerOk : Bool)
    (h : email = [] ∨ password = [] ∨ isEmailValid email = false) :
    ((handleRegister E prf hk st email password symBytes ivBytes registerOk).err =
        .error .enterEmailAndPassword ∨
     (handleRegister E prf hk st email password symBytes ivBytes registerOk).err =
        .error .invalidEmail) ∧
    (handleRegister E prf hk st email password symBytes ivBytes registerOk).sent = none ∧
    (handleRegister E prf hk st email password symBytes ivBytes registerOk).store = st := by
  by_cases h1 : email = [] ∨ password = []
  · simp [handleRegister, if_pos h1]
  · have h2 : isEmailValid email = false := by
      rcases h with h | h | h
      · exact absurd (Or.inl h) h1
      · exact absurd (Or.inr h) h1
      · exact h
    simp [handleRegister, if_neg h1, h2]

/-- Witness for C9's amended theorem at an empty email. -/
theorem register_validates_before_crypto_witness :
    ((handleRegister toyE toyPrf toyHk ⟨none, none, none, none⟩ [] [112]
        (List.replicate 32 6) (List.replicate 16 0) true).err =
        .error .enterEmailAndPassword ∨
     (handleRegister toyE toyPrf toyHk ⟨none, none, none, none⟩ [] [112]
        (List.replicate 32 6) (List.replicate 16 0) true).err =
        .error .invalidEmail) ∧
    (handleRegister toyE toyPrf toyHk ⟨none, none, none, none⟩ [] [112]
        (List.replicate 32 6) (List.replicate 16 0) true).sent = none ∧
    (handleRegister toyE toyPrf toyHk ⟨none, none, none, none⟩ [] [112]
        (List.replicate 32 6) (List.replicate 16 0) true).store =
      ⟨none, none, none, none⟩ :=
  register_validates_before_crypto toyE toyPrf toyHk ⟨none, none, none, none⟩
    [] [112] (List.replicate 32 6) (List.replicate 16 0) true (Or.inl rfl)

/-- Counterexample to C9 as stated: `login` with an *empty* email and
password performs no validation — it derives the keys and reaches the
server, failing with the server-side credential rejection rather than with
`InvalidInput` before any cryptography. -/
theorem login_no_input_validation :
    (login toyE toyPrf toyHk ⟨[], [10], [11], true, [], []⟩ [] []
        ⟨none, none, none, none⟩).2 = .error .invalidCredentials ∧
    VaultError.invalidCredentials ≠ VaultError.invalidInput := by
  refine ⟨?_, by decide⟩
  have hne : getAuthHash toyPrf (calculateMasterKey toyPrf [] []) [] ≠ ([] : Str) := by
    intro heq
    have hl := congrArg List.length heq
    rw [getAuthHash_length toyPrf_length (by norm_num)] at hl
    simp at hl
  simp only [login]
  rw [if_neg hne]

/-! ### C4: login with wrong credentials

The claim quantifies over attempts whose stretched master key differs from
the one used at wrapping.  The only gate in the code is the server comparing
the submitted auth hash with the registered one, so the theorem also assumes
the auth hashes differ (which a collision-free KDF chain guarantees whenever
the master keys differ). -/

/-- C4.  Against a server state registered from the right credentials,
`login` with a password whose stretched master key (and hence auth hash)
differs from the registered one fails with the invalid-credentials error and
leaves the whole store — in particular the `vault_key` entry — unchanged. -/
theorem login_wrong_password_fails (D : Str → Str → Str) (prf : Str → Str → Str)
    (hk : Str → Str) (srv : ServerAuthState) (email rightPwd wrongPwd : Str)
    (st : Store)
    (hreg : srv.auth_hash =
      getAuthHash prf (calculateMasterKey prf email rightPwd) rightPwd)
    (hstretch : stretchedMasterKey hk (calculateMasterKey prf email wrongPwd) ≠
      stretchedMasterKey hk (calculateMasterKey prf email rightPwd))
    (hhash : getAuthHash prf (calculateMasterKey prf email wrongPwd) wrongPwd ≠
      getAuthHash prf (calculateMasterKey prf email rightPwd) rightPwd) :
    login D prf hk srv email wrongPwd st = (st, .error .invalidCredentials) := by
  simp only [login, hreg]
  rw [if_neg hhash]

/-! Machinery to evaluate the 10000-iteration PBKDF2 on a concrete PRF
without unrolling it: `wPrf` cycles with period 3 on its second argument, so
one block is the XOR of a 3-periodic sequence, computable by induction. -/

theorem xorB_comm : ∀ (a b : Str), xorB a b = xorB b a
  | [], [] => rfl
  | [], _ :: _ => rfl
  | _ :: _, [] => rfl
  | x :: a, y :: b => by
    simp only [xorB, List.zipWith] at *
    rw [Nat.xor_comm]
    exact congrArg _ (xorB_comm a b)

theorem xorB_assoc : ∀ (a b c : Str), xorB (xorB a b) c = xorB a (xorB b c)
  | [], _, _ => rfl
  | _ :: _, [], _ => rfl
  | x :: a, y :: b, [] => rfl
  | x :: a, y :: b, z :: c => by
    simp only [xorB, List.zipWith] at *
    rw [Nat.xor_assoc]
    exact congrArg _ (xorB_assoc a b c)

theorem xorB_swap (z u v : Str) : xorB (xorB z u) v = xorB (xorB z v) u := by
  rw [xorB_assoc, xorB_comm u v, ← xorB_assoc]

theorem wM2_length (pw : Str) : (wM2 pw).length = 32 := by
  simp [wM2]

theorem wT_length (pw : Str) {acc : Str} (hacc : acc.length = 32) :
    (wT pw acc).length = 32 := by
  simp [wT, xorB_length, wM2_length, hacc, wM0, wM1]

theorem wT_invol (pw : Str) {acc : Str} (hacc : acc.length = 32) :
    wT pw (wT pw acc) = acc := by
  have hm2 : (wM2 pw).length = 32 := wM2_length pw
  have hm0 : (wM0 : Str).length = 32 := by simp [wM0]
  have hm1 : (wM1 : Str).length = 32 := by simp [wM1]
  have hc2 : xorB (xorB acc (wM2 pw)) (wM2 pw) = acc :=
    xorB_cancel _ _ (by rw [hacc, hm2])
  have e1 : xorB (xorB (xorB acc (wM2 pw)) wM0) (wM2 pw) = xorB acc wM0 := by
    rw [xorB_swap, hc2]
  have e2 : xorB (xorB (xorB (xorB acc (wM2 pw)) wM0) wM1) (wM2 pw) =
      xorB (xorB acc wM0) wM1 := by
    rw [xorB_swap, e1]
  have e3 : xorB (xorB (xorB acc wM0) wM1) wM0 = xorB acc wM1 := by
    rw [xorB_swap, xorB_cancel _ _ (by rw [hacc, hm0])]
  show xorB (xorB (xorB (wT pw acc) (wM2 pw)) wM0) wM1 = acc
  rw [show wT pw acc = xorB (xorB (xorB acc (wM2 pw)) wM0) wM1 from rfl, e2, e3]
  exact xorB_cancel _ _ (by rw [hacc, hm1])

theorem blockGo_succ (prf : Str → Str → Str) (pw : Str) (k : Nat) (u acc : Str) :
    blockGo prf pw (k + 1) u acc =
      blockGo prf pw k (prf pw u) (xorB acc (prf pw u)) := by
  simp only [blockGo]

theorem wPrf_cycle_step (pw : Str) (h1 : wM2 pw ≠ wM1) (h0 : wM2 pw ≠ wM0)
    (n : Nat) (acc : Str) :
    blockGo wPrf pw (3 * n + 3) wM1 acc = blockGo wPrf pw (3 * n) wM1 (wT pw acc) := by
  have c1 : wPrf pw wM1 = wM2 pw := by simp [wPrf]
  have c2 : wPrf pw (wM2 pw) = wM0 := by simp [wPrf, h1]
  have c3 : wPrf pw wM0 = wM1 := by
    have hne : (wM0 : Str) ≠ wM1 := by decide
    simp [wPrf, hne, Ne.symm h0]
  rw [show 3 * n + 3 = (3 * n + 2) + 1 from by omega, blockGo_succ, c1]
  rw [show 3 * n + 2 = (3 * n + 1) + 1 from by omega, blockGo_succ, c2]
  rw [blockGo_succ, c3]
  rfl

theorem wPrf_blockGo_formula (pw : Str) (h1 : wM2 pw ≠ wM1) (h0 : wM2 pw ≠ wM0) :
    ∀ (n : Nat) (acc : Str), acc.length = 32 →
      blockGo wPrf pw (3 * n) wM1 acc = if n % 2 = 0 then acc else wT pw acc
  | 0, acc, _ => by norm_num [blockGo]
  | n + 1, acc, hacc => by
    rw [show 3 * (n + 1) = 3 * n + 3 from by ring, wPrf_cycle_step pw h1 h0 n acc,
      wPrf_blockGo_formula pw h1 h0 n (wT pw acc) (wT_length pw hacc)]
    by_cases hp : n % 2 = 0
    · rw [if_pos hp, if_neg (by omega)]
    · rw [if_neg hp, if_pos (by omega), wT_invol pw hacc]

theorem pbkdf2Go_done {prf : Str → Str → Str} {pw salt : Str} {c dkLen : Nat}
    (fuel i : Nat) (acc : Str) (h : dkLen ≤ acc.length) :
    pbkdf2Go prf pw salt c dkLen fuel i acc = acc := by
  cases fuel with
  | zero => rfl
  | succ f => simp only [pbkdf2Go, if_pos h]

theorem pbkdf2_single_block {prf : Str → Str → Str} (pw salt : Str) {c dkLen : Nat}
    (h : (pbkdf2Block prf pw salt c 1).length = dkLen) (hpos : 0 < dkLen) :
    pbkdf2 prf pw salt c dkLen = pbkdf2Block prf pw salt c 1 := by
  obtain ⟨f, rfl⟩ : ∃ f, dkLen = f + 1 := ⟨dkLen - 1, by omega⟩
  simp only [pbkdf2, pbkdf2Go]
  rw [if_neg (by simp)]
  rw [pbkdf2Go_done f 2 _ (by simp [h])]
  simp only [List.nil_append]
  exact List.take_of_length_le (by rw [h])

theorem wPrf_block (pw salt : Str) (i : Nat)
    (hc1 : salt ++ int32be i ≠ wM1) (hc2 : salt ++ int32be i ≠ wM2 pw)
    (h1 : wM2 pw ≠ wM1) (h0 : wM2 pw ≠ wM0) :
    pbkdf2Block wPrf pw salt 10000 i = wT pw wM1 := by
  have hU1 : wPrf pw (salt ++ int32be i) = wM1 := by simp [wPrf, hc1, hc2]
  simp only [pbkdf2Block, hU1]
  rw [show (10000 - 1 : Nat) = 3 * 3333 from by norm_num,
    wPrf_blockGo_formula pw h1 h0 3333 wM1 (by simp [wM1])]
  norm_num

theorem wPrf_cmk (email pw : Str)
    (hc1 : toLowerAscii email ++ int32be 1 ≠ wM1)
    (hc2 : toLowerAscii email ++ int32be 1 ≠ wM2 pw)
    (h1 : wM2 pw ≠ wM1) (h0 : wM2 pw ≠ wM0) :
    calculateMasterKey wPrf email pw = wT pw wM1 := by
  have hb := wPrf_block pw (toLowerAscii email) 1 hc1 hc2 h1 h0
  have hlen : (wT pw wM1).length = 32 := wT_length pw (by simp [wM1])
  simp only [calculateMasterKey, pbkdfIterations]
  rw [pbkdf2_single_block pw (toLowerAscii email) (by rw [hb, hlen]) (by norm_num), hb]

theorem wPrf_authHash (mk pwd : Str)
    (hc1 : pwd ++ int32be 1 ≠ wM1) (hc2 : pwd ++ int32be 1 ≠ wM2 mk)
    (h1 : wM2 mk ≠ wM1) (h0 : wM2 mk ≠ wM0) :
    getAuthHash wPrf mk pwd = hexEncode (wT mk wM1) := by
  have hb := wPrf_block mk pwd 1 hc1 hc2 h1 h0
  have hlen : (wT mk wM1).length = 32 := wT_length mk (by simp [wM1])
  simp only [getAuthHash, pbkdfIterations]
  rw [pbkdf2_single_block mk pwd (by rw [hb, hlen]) (by norm_num), hb]

/-- Witness for C4: a concrete registered server state (email `"e"`, password
`"a"`), a concrete wrong password `"b"` whose stretched master key and auth
hash differ from the registered ones, and the resulting rejected login with
the store untouched. -/
theorem login_wrong_password_fails_witness :
    login toyE wPrf (fun x => x) wSrv [101] [98] ⟨none, none, none, none⟩ =
      (⟨none, none, none, none⟩, .error .invalidCredentials) := by
  have hcA : calculateMasterKey wPrf [101] [97] = wT [97] wM1 :=
    wPrf_cmk [101] [97] (by decide) (by decide) (by decide) (by decide)
  have hcB : calculateMasterKey wPrf [101] [98] = wT [98] wM1 :=
    wPrf_cmk [101] [98] (by decide) (by decide) (by decide) (by decide)
  have hreg : wSrv.auth_hash =
      getAuthHash wPrf (calculateMasterKey wPrf [101] [97]) [97] := by
    simp only [wSrv]
  refine login_wrong_password_fails toyE wPrf (fun x => x) wSrv [101] [97] [98]
    ⟨none, none, none, none⟩ hreg ?_ ?_
  · rw [hcA, hcB]
    decide
  · rw [hcA, hcB]
    rw [wPrf_authHash (wT [98] wM1) [98] (by decide) (by decide) (by decide) (by decide),
      wPrf_authHash (wT [97] wM1) [97] (by decide) (by decide) (by decide) (by decide)]
    decide
